import Mathlib

/-!
Shallow embedding of `botwfstools/botw_contentfs.py` (a FUSE filesystem that
presents BotW content directories as one merged tree, turning SARC archive
files into directories, with an optional copy-on-write work directory).

Modelling conventions:
* Paths are lists of path segments (`PurePosixPath` relative to the mount
  root; `[]` is the path `'.'`).
* Byte strings are `List Nat`.
* Host directory trees (`HostFS`) are association lists from paths to
  entries; content roots are immutable for the mount's lifetime, exactly as
  the program assumes.  The root `[]` of a tree is always a directory (the
  program validates its directory arguments on startup).
* The sarc library is external to the repository; it is modelled as an
  abstract parse function `Bytes → Option Archive` where an `Archive` gives
  the member list / member bytes / member sizes, as the spec describes.
* `os`-level behaviour is modelled per POSIX: `os.read` advances the file
  offset, `os.lseek(SEEK_SET)` sets it, `os.write` on a descriptor opened
  read-only fails with `EBADF`, `os.open` on a missing file raises
  `FileNotFoundError` (here `oserr ENOENT`).
* Python `lru_cache`s over immutable data (`_find_parent`, `isdir`,
  `try_open_dir`, `_get_sarc`, `_get_directory_from_content`,
  `_do_get_file_stats`) are semantically transparent and are not modelled;
  the one cache with observable effect, `_get_file_from_content` (it caches
  mutable file-handle objects), is modelled explicitly in `Sys.fcache`.
-/

abbrev Bytes := List Nat

abbrev FPath := List String

/-- Errno values used by the program (and by the host OS calls it makes). -/
inductive Errno where
  | ENOENT | EROFS | EBADF | ENOTDIR | EISDIR | ENOTEMPTY | EEXIST
deriving DecidableEq, Repr

/-- Errors: `fuse e` models `FuseOSError(e)` raised by the program itself,
`oserr e` models an `OSError` coming from a host call, `keyError` models a
Python `KeyError` escaping from `sarc.get_file_data`. -/
inductive FsError where
  | fuse (e : Errno)
  | oserr (e : Errno)
  | keyError
deriving DecidableEq, Repr

/-- Test used by `except FuseOSError` handlers: only `fuse` errors are caught. -/
def FsError.isFuse : FsError → Bool
  | .fuse _ => true
  | _ => false

/- stat.S_* constants (POSIX numeric values). -/

def S_IFMT : Nat := 61440

def S_IFDIR : Nat := 16384

def S_IFREG : Nat := 32768

def S_IRWXU : Nat := 448

def S_IRUSR : Nat := 256

def S_IWUSR : Nat := 128

def S_IXUSR : Nat := 64

/-- Python `x &= ~m` on non-negative ints clears the bits of `m` in `x`.
Since `x &&& m` is a sub-mask of `x`, xor-ing it out is exactly that
(kernel-reducible, unlike `Nat.ldiff`). -/
def bitClear (x m : Nat) : Nat := x ^^^ (x &&& m)

theorem testBit_bitClear (x m i : Nat) :
    (bitClear x m).testBit i = (x.testBit i && !(m.testBit i)) := by
  simp only [bitClear, Nat.testBit_xor, Nat.testBit_and]
  cases x.testBit i <;> cases m.testBit i <;> rfl

/-- Stat record, the fields kept by `my_stat` (times and the POSIX-only
`st_blocks` carry no information relevant to the verified claims and are
modelled as plain naturals). -/
structure StatRec where
  st_mode : Nat
  st_size : Nat
  st_nlink : Nat
  st_uid : Nat
  st_gid : Nat
  st_atime : Nat
  st_mtime : Nat
  st_ctime : Nat
deriving DecidableEq, Repr

/-- `change_st_to_directory`: `st_mode &= ~S_IFREG; |= S_IFDIR; |= S_IRWXU`,
`st_size = 0`. -/
def change_st_to_directory (st : StatRec) : StatRec :=
  { st with
    st_mode := ((bitClear st.st_mode S_IFREG) ||| S_IFDIR) ||| S_IRWXU
    st_size := 0 }

/- FPath and name helpers (`PurePosixPath` conventions). -/

/-- `str(path)` for a relative `PurePosixPath`: `'.'` when empty, segments
joined by `/` otherwise. -/
def joinPath (p : FPath) : String :=
  if p = [] then "." else String.intercalate "/" p

/-- Python `name[1:] if name[0] == '/' else name` (strip one leading slash). -/
def stripSlashC : List Char → List Char
  | '/' :: t => t
  | cs => cs

/-- Substring test, Python's `needle in hay` on strings. -/
def containsSub (needle : List Char) : List Char → Bool
  | [] => needle.isPrefixOf []
  | c :: t => needle.isPrefixOf (c :: t) || containsSub needle t

/-- `PurePosixPath.suffix` of a file name: from the last dot on, and empty
when the dot is first or last character (pathlib's rule). -/
def nameSuffix (name : List Char) : List Char :=
  match (name.reverse.takeWhile (fun c => c ≠ '.')) with
  | rtail =>
    if rtail.length = name.length then []            -- no dot at all
    else if rtail.length = 0 then []                 -- dot is the last character
    else if rtail.length = name.length - 1 then []   -- dot is the first character
    else '.' :: rtail.reverse

/-- `ARCHIVE_EXTS` from the source. -/
def ARCHIVE_EXTS : List String :=
  ["sarc", "pack", "bactorpack", "bmodelsh", "beventpack", "stera", "stats",
   "ssarc", "spack", "sbactorpack", "sbmodelsh", "sbeventpack", "sstera", "sstats",
   "blarc", "sblarc", "genvb", "sgenvb", "bfarc", "sbfarc"]

/-- `is_archive_filename(path)`: `path.suffix[1:] in ARCHIVE_EXTS`.  For the
empty path the name is empty and the suffix is empty. -/
def isArchiveFilename (p : FPath) : Bool :=
  match p.getLast? with
  | none => false
  | some name => ARCHIVE_EXTS.contains (String.mk ((nameSuffix name.toList).drop 1))

/- Host filesystem trees. -/

/-- One host directory entry: a regular file with its bytes, or a directory.
Both carry the `os.lstat` record for the entry. -/
inductive HEntry where
  | file (data : Bytes) (st : StatRec)
  | dir (st : StatRec)
deriving DecidableEq, Repr

def HEntry.stat : HEntry → StatRec
  | .file _ st => st
  | .dir st => st

/-- A host directory tree, an association list from (relative) paths to
entries.  Well-formed trees list every intermediate directory explicitly. -/
structure HostFS where
  entries : List (FPath × HEntry)
deriving DecidableEq, Repr

def HostFS.lookup (fs : HostFS) (p : FPath) : Option HEntry :=
  (fs.entries.find? (fun e => e.1 = p)).map (·.2)

/-- `os.path.isfile`. -/
def HostFS.isfileB (fs : HostFS) (p : FPath) : Bool :=
  match fs.lookup p with
  | some (.file _ _) => true
  | _ => false

/-- `os.path.isdir`.  The root of a tree is a directory (the program verifies
each content/work directory argument with `os.path.isdir` before mounting). -/
def HostFS.isdirB (fs : HostFS) (p : FPath) : Bool :=
  p.isEmpty ||
    match fs.lookup p with
    | some (.dir _) => true
    | _ => false

/-- `os.path.exists`. -/
def HostFS.pathExistsB (fs : HostFS) (p : FPath) : Bool :=
  p.isEmpty || (fs.lookup p).isSome

/-- Names of the immediate children of `p` in the tree. -/
def HostFS.childNames (fs : HostFS) (p : FPath) : Finset String :=
  (fs.entries.filterMap (fun e =>
    if e.1.length = p.length + 1 ∧ e.1.take p.length = p then e.1.getLast? else none)).toFinset

/-- `os.listdir`: the child names of a directory; `FileNotFoundError` on a
missing path, `NotADirectoryError` on a non-directory. -/
def HostFS.listdir (fs : HostFS) (p : FPath) : Except FsError (Finset String) :=
  if fs.isdirB p then .ok (fs.childNames p)
  else if fs.pathExistsB p then .error (.oserr .ENOTDIR)
  else .error (.oserr .ENOENT)

/- Parsed archives (the sarc library surface the engine relies on). -/

/-- A parsed archive: the member names (possibly with a leading slash, as some
archives store them) with their byte contents. -/
structure Archive where
  files : List (String × Bytes)
deriving DecidableEq, Repr

/-- `SARC.list_files()`. -/
def Archive.list_files (a : Archive) : List String :=
  a.files.map (·.1)

/-- `SARC.get_file_data(name)`; `none` models the `KeyError`. -/
def Archive.get_file_data (a : Archive) (name : String) : Option Bytes :=
  (a.files.find? (fun e => e.1 = name)).map (·.2)

/-- `SARC.get_file_size(name)` (queried only for names in `list_files`). -/
def Archive.get_file_size (a : Archive) (name : String) : Nat :=
  ((a.get_file_data name).map List.length).getD 0

/-- The `try` / `except KeyError` lookup of `ArchiveDirectory.open_file`:
the bare name first, then with a leading slash. -/
def Archive.lookup_member (a : Archive) (name : String) : Option Bytes :=
  match a.get_file_data name with
  | some d => some d
  | none => a.get_file_data ("/" ++ name)

def SELF_FILE_NAME : String := ".__RAW_ARCHIVE__"

/-- One member name's contribution to `ArchiveDirectory.list_files`: skip
names outside `directory`, strip one leading slash, drop the directory
prefix, and keep the first remaining path segment. -/
def archiveChildOf (dirS : List Char) (name : String) : Option String :=
  if dirS ≠ [] ∧ ¬ dirS.isPrefixOf name.toList then none
  else
    some (String.mk ((((stripSlashC name.toList).drop dirS.length)).takeWhile (fun c => c ≠ '/')))

/-- `ArchiveDirectory.list_files(path)`: the set of immediate children below
`path`, plus `.__RAW_ARCHIVE__` when listing the archive root. -/
def archiveListFiles (a : Archive) (path : FPath) : Finset String :=
  let dirS : List Char := if path = [] then [] else (joinPath path).toList ++ ['/']
  (a.list_files.filterMap (archiveChildOf dirS)).toFinset ∪
    (if dirS = [] then {SELF_FILE_NAME} else ∅)

/-- Classification of one scan of the `for arc_file in self._arc.list_files()`
loop of `ArchiveDirectory.get_file_stats`. -/
inductive StatMatch where
  | exact (f : String)
  | subdir (f : String)
deriving DecidableEq, Repr

/-- First member matching `s` exactly (bare or slash-prefixed) or having
`s + "/"` as a substring, in archive order — the loop's control flow. -/
def statMatchLoop (s : String) : List String → Option StatMatch
  | [] => none
  | f :: fs =>
    if f = s ∨ f = "/" ++ s then some (.exact f)
    else if containsSub (s ++ "/").toList f.toList then some (.subdir f)
    else statMatchLoop s fs

/-- Stat synthesis for a path inside an archive, from the archive file's own
stat `ast`: exact member match clears `S_IFDIR` and `S_IXUSR`, sets `S_IFREG`
and `S_IRUSR | S_IWUSR`, and sets the member's size; a substring match
yields a synthesized directory; otherwise `FuseOSError(ENOENT)`. -/
def member_stats (a : Archive) (s : String) (ast : StatRec) : Except FsError StatRec :=
  match statMatchLoop s a.list_files with
  | some (.exact f) =>
    .ok { ast with
          st_mode := ((bitClear (bitClear ast.st_mode S_IFDIR) S_IXUSR) ||| S_IFREG)
                       ||| (S_IRUSR ||| S_IWUSR)
          st_size := a.get_file_size f }
  | some (.subdir _) => .ok (change_st_to_directory ast)
  | none => .error (.fuse .ENOENT)

/- File handles. -/

/-- Result of a `Directory.open_file` call, before any I/O happens on it:
either a freshly opened host file (`HostFile`, offset 0) or an in-memory
view of archive-member bytes (`InMemoryFile`, position 0). -/
inductive PFile where
  | hostF (data : Bytes) (writable : Bool)
  | memF (data : Bytes)
deriving DecidableEq, Repr

def PFile.data : PFile → Bytes
  | .hostF d _ => d
  | .memF d => d

/-- Live file-handle state: `host` wraps an OS descriptor (the OS file offset
advances on `os.read`/`os.write`), `mem` is an `InMemoryFile` (its `_position`
moves only on `seek`).  The `writable` flag records whether the descriptor
was opened with a write mode. -/
inductive FileH where
  | host (data : Bytes) (pos : Nat) (writable : Bool)
  | mem (data : Bytes) (pos : Nat)
deriving DecidableEq, Repr

def PFile.toFileH : PFile → FileH
  | .hostF d w => .host d 0 w
  | .memF d => .mem d 0

/-- `seek(offset)`: `os.lseek(fh, offset, SEEK_SET)` resp. `_position = offset`. -/
def FileH.seek : FileH → Nat → FileH
  | .host d _ w, off => .host d off w
  | .mem d _, off => .mem d off

/-- `read(count)`.  `os.read` returns at most `count` bytes from the current
offset and advances it; `InMemoryFile.read` clamps to the buffer, returns
`b''` when nothing is left, and does not move `_position`. -/
def FileH.readF : FileH → Nat → Bytes × FileH
  | .host d pos w, count =>
    let n := min count (d.length - pos)
    ((d.drop pos).take n, .host d (pos + n) w)
  | .mem d pos, count =>
    let actual := if d.length < pos + count then d.length - pos else count
    if actual = 0 then ([], .mem d pos)
    else ((d.drop pos).take actual, .mem d pos)

/-- `write(buffer)`: `InMemoryFile.write` raises `FuseOSError(EROFS)`;
`os.write` on a read-only descriptor fails with `EBADF`, otherwise it writes
at the current offset (zero-padding any gap) and advances it. -/
def FileH.writeF : FileH → Bytes → Except FsError (Nat × FileH)
  | .mem _ _, _ => .error (.fuse .EROFS)
  | .host d pos w, buf =>
    if w then
      let d1 := (d.take pos ++ List.replicate (pos - d.length) 0) ++ buf
                  ++ d.drop (pos + buf.length)
      .ok (buf.length, .host d1 (pos + buf.length) w)
    else .error (.oserr .EBADF)

/-- `get_size()`: `os.fstat(fh).st_size` resp. `len(self._data)`. -/
def FileH.size : FileH → Nat
  | .host d _ _ => d.length
  | .mem d _ => d.length

/- Directory providers. -/

/-- The three `Directory` implementations.  Each constructor stores its path
relative to its base (`_path.relative_to(_base_path)`), so
`get_path_relative_to_this(partial)` is `partial.drop relp.length`.
`host` is a `HostDirectory` over the host tree `w` (the work directory);
`content` is a `ContentDirectory` over the ordered content roots;
`archive` is an `ArchiveDirectory` with its parsed archive and the parent
directory the archive was opened from. -/
inductive Dir where
  | host (w : HostFS) (relp : FPath)
  | content (roots : List HostFS) (relp : FPath)
  | archive (relp : FPath) (arc : Archive) (parent : Dir)
deriving DecidableEq, Repr

def Dir.relp : Dir → FPath
  | .host _ r => r
  | .content _ r => r
  | .archive r _ _ => r

/-- `ContentDirectory._find_parent(path, existence_fn)`: for `'.'` the last
root; otherwise scan the roots from last to first and return the first where
`pred` holds (`none` models the `FuseOSError(ENOENT)`). -/
def findParent (pred : HostFS → FPath → Bool) (roots : List HostFS) (p : FPath) :
    Option HostFS :=
  if p = [] then roots.getLast?
  else roots.reverse.find? (fun fs => pred fs p)

/-- Open flags, as far as the program inspects them
(`flags & os.O_WRONLY or flags & os.O_RDWR`). -/
inductive OFlags where
  | rdonly | wronly | rdwr
deriving DecidableEq, Repr

def OFlags.writableB : OFlags → Bool
  | .rdonly => false
  | _ => true

/-- `Directory.open_file(file, flags)` for each variant. -/
def Dir.open_file : Dir → FPath → OFlags → Except FsError PFile
  | .host w relp, file, flags =>
    match w.lookup (relp ++ file) with
    | some (.file d _) => .ok (.hostF d flags.writableB)
    | some (.dir _) => .error (.oserr .EISDIR)
    | none => .error (.oserr .ENOENT)
  | .content roots relp, file, flags =>
    match findParent HostFS.isfileB roots (relp ++ file) with
    | none => .error (.fuse .ENOENT)
    | some fs =>
      match fs.lookup (relp ++ file) with
      | some (.file d _) => .ok (.hostF d flags.writableB)
      | _ => .error (.oserr .EISDIR)
  | .archive relp arc parent, file, _ =>
    if joinPath file = SELF_FILE_NAME then
      Dir.open_file parent (relp.drop parent.relp.length) .rdonly
    else
      match arc.lookup_member (joinPath file) with
      | some d => .ok (.memF d)
      | none => .error .keyError

/-- `Directory.get_file_stats(path)` for each variant. -/
def Dir.get_file_stats : Dir → FPath → Except FsError StatRec
  | .host w relp, path =>
    match w.lookup (relp ++ path) with
    | some e => .ok e.stat
    | none => .error (.oserr .ENOENT)
  | .content roots relp, path =>
    match findParent HostFS.pathExistsB roots (relp ++ path) with
    | none => .error (.fuse .ENOENT)
    | some fs =>
      match fs.lookup (relp ++ path) with
      | some e => .ok e.stat
      | none => .error (.oserr .ENOENT)
  | .archive relp arc parent, path => do
    let ast ← Dir.get_file_stats parent (relp.drop parent.relp.length)
    if joinPath path = SELF_FILE_NAME then .ok ast
    else member_stats arc (joinPath path) ast

/-- `ContentDirectory._do_list_files` over the reversed root list: union the
listings, tolerating `FileNotFoundError` per root. -/
def contentListGo (q : FPath) : List HostFS → Except FsError (Finset String)
  | [] => .ok ∅
  | fs :: rest =>
    match fs.listdir q with
    | .ok l => (contentListGo q rest).map (fun acc => l ∪ acc)
    | .error (.oserr .ENOENT) => contentListGo q rest
    | .error e => .error e

/-- `Directory.list_files(path)` for each variant. -/
def Dir.list_files : Dir → FPath → Except FsError (Finset String)
  | .host w relp, path => w.listdir (relp ++ path)
  | .content roots relp, path => contentListGo (relp ++ path) roots.reverse
  | .archive _ arc _, path => .ok (archiveListFiles arc path)

/- Content device and directory resolution. -/

/-- `ContentDevice.isdir(p)`: some content root contains `p` as a directory. -/
def deviceIsDir (roots : List HostFS) (p : FPath) : Bool :=
  roots.any (fun fs => fs.isdirB p)

/-- `ContentDevice.try_open_dir(p)`. -/
def tryOpenDir (roots : List HostFS) (p : FPath) : Option Dir :=
  if deviceIsDir roots p then some (.content roots p) else none

/-- Where a resolution starts: the virtual content root (`!!!content!!!`
prefix) or the work directory (`_get_directory`'s `base_path`). -/
inductive DirBase where
  | contentRoot
  | workRoot (w : HostFS)

/-- `_get_sarc` minus the parent resolution: open the archive file through
`parent`, read it fully (a fresh handle reads its complete backing bytes),
parse; a failed parse is `FuseOSError(ENOENT)`. -/
def get_sarc_arc (parse : Bytes → Option Archive) (parent : Dir) (p : FPath) :
    Except FsError Archive := do
  let pf ← parent.open_file (p.drop parent.relp.length) .rdonly
  match parse pf.data with
  | some arc => .ok arc
  | none => .error (.fuse .ENOENT)

/-- The `while` loop of `_get_directory`, fuelled by the path length (each
iteration pops one segment; at the root the loop always terminates for a
device with at least one root — fuel exhaustion models the degenerate
no-roots case, in which the Python loop would never return). -/
def get_directory_go (roots : List HostFS) (parse : Bytes → Option Archive)
    (base : DirBase) : Nat → FPath → Except FsError Dir
  | 0, _ => .error (.fuse .ENOENT)
  | fuel + 1, p =>
    match base with
    | .contentRoot =>
      match tryOpenDir roots p with
      | some d => .ok d
      | none =>
        if isArchiveFilename p ∧ ¬ deviceIsDir roots p then do
          let parent ← get_directory_go roots parse base fuel p.dropLast
          let arc ← get_sarc_arc parse parent p
          .ok (.archive p arc parent)
        else get_directory_go roots parse base fuel p.dropLast
    | .workRoot w =>
      if w.isdirB p then .ok (.host w p)
      else
        if isArchiveFilename p ∧ ¬ w.isdirB p then do
          let parent ← get_directory_go roots parse base fuel p.dropLast
          let arc ← get_sarc_arc parse parent p
          .ok (.archive p arc parent)
        else get_directory_go roots parse base fuel p.dropLast

/-- `_get_directory(base, path)`. -/
def get_directory (roots : List HostFS) (parse : Bytes → Option Archive)
    (base : DirBase) (p : FPath) : Except FsError Dir :=
  get_directory_go roots parse base (p.length + 1) p

/-- `_get_file(base, path, flags)`: resolve the parent directory, then open
the path relative to it. -/
def get_file (roots : List HostFS) (parse : Bytes → Option Archive)
    (base : DirBase) (p : FPath) (flags : OFlags) : Except FsError PFile := do
  let parent ← get_directory roots parse base p.dropLast
  parent.open_file (p.drop parent.relp.length) flags

/- The descriptor table (`FdAllocator`). -/

structure FdAlloc (T : Type) where
  fdMap : List (Nat × T)
  nextFd : Nat
deriving Repr

def FdAlloc.keys {T : Type} (a : FdAlloc T) : List Nat :=
  a.fdMap.map (·.1)

/-- The scan loop of `FdAllocator.allocate`: starting at `fd`, the first
value not in `used` (the fuel is irrelevant once it exceeds the number of
used descriptors). -/
def findFreeFd (used : List Nat) : Nat → Nat → Nat
  | 0, fd => fd
  | fuel + 1, fd => if fd ∈ used then findFreeFd used fuel (fd + 1) else fd

/-- `FdAllocator.allocate(item)`: scan from `_next_fd` for an unmapped
descriptor, map it, and set `_next_fd` to the descriptor plus one. -/
def FdAlloc.allocate {T : Type} (a : FdAlloc T) (item : T) : Nat × FdAlloc T :=
  let fd := findFreeFd a.keys (a.keys.length + 1) a.nextFd
  (fd, ⟨(fd, item) :: a.fdMap, fd + 1⟩)

/-- `FdAllocator.free(fd)`: drop the mapping, pull `_next_fd` down to `fd`
if it was above it.  (`del` on a missing key would raise; callers check.) -/
def FdAlloc.free {T : Type} (a : FdAlloc T) (fd : Nat) : FdAlloc T :=
  ⟨a.fdMap.filter (fun e => e.1 ≠ fd), min a.nextFd fd⟩

def FdAlloc.get_entry {T : Type} (a : FdAlloc T) (fd : Nat) : Option T :=
  (a.fdMap.find? (fun e => e.1 = fd)).map (·.2)

/- The operations object (`BotWContent`) and its mutable state. -/

/-- Process state of the mounted filesystem: the immutable content roots and
parse function, the (mutable) work tree, the live file-handle objects keyed
by an identity (`handles` / `nextH` model Python object identity), the
`_get_file_from_content` lru cache (path → handle identity; it is keyed by
`(path, flags)` but every caller passes `O_RDONLY`), and the descriptor
table mapping fds to handle identities. -/
structure Sys where
  roots : List HostFS
  parse : Bytes → Option Archive
  work : Option HostFS
  handles : List (Nat × FileH)
  nextH : Nat
  fcache : List (FPath × Nat)
  fd : FdAlloc Nat

def Sys.init (roots : List HostFS) (work : Option HostFS)
    (parse : Bytes → Option Archive) : Sys :=
  ⟨roots, parse, work, [], 0, [], ⟨[], 0⟩⟩

def Sys.getHandle (s : Sys) (hid : Nat) : Option FileH :=
  (s.handles.find? (fun e => e.1 = hid)).map (·.2)

def Sys.setHandle (s : Sys) (hid : Nat) (f : FileH) : Sys :=
  { s with handles := s.handles.map (fun e => if e.1 = hid then (hid, f) else e) }

def Sys.addHandle (s : Sys) (f : FileH) : Nat × Sys :=
  (s.nextH, { s with handles := (s.nextH, f) :: s.handles, nextH := s.nextH + 1 })

/-- `_get_file_from_content(path, O_RDONLY)` with its lru cache: a hit
returns the cached handle object; a miss resolves through the content
device, creates the handle, and caches it. -/
def get_file_from_content_st (s : Sys) (p : FPath) : Except FsError (Nat × Sys) :=
  match s.fcache.find? (fun e => e.1 = p) with
  | some e => .ok (e.2, s)
  | none => do
    let pf ← get_file s.roots s.parse .contentRoot p .rdonly
    let (hid, s1) := s.addHandle pf.toFileH
    .ok (hid, { s1 with fcache := (p, hid) :: s1.fcache })

/-- `_get_file_from_partial(path, O_RDONLY)` (the only flags callers pass):
the work directory wins when it holds `path` as a regular file (this opens a
fresh, uncached handle); otherwise fall back to the content device. -/
def get_file_work_or_content (s : Sys) (p : FPath) : Except FsError (Nat × Sys) :=
  match s.work with
  | some w =>
    if w.isfileB p then do
      let pf ← get_file s.roots s.parse (.workRoot w) p .rdonly
      .ok (s.addHandle pf.toFileH)
    else get_file_from_content_st s p
  | none => get_file_from_content_st s p

/- Host-side mutation of the work tree (`os.makedirs`, file creation, …).
The metadata the host assigns to new entries is modelled canonically. -/

def fileStatFor (data : Bytes) : StatRec :=
  ⟨33188, data.length, 1, 0, 0, 0, 0, 0⟩

def dirStatNew : StatRec :=
  ⟨16877, 0, 1, 0, 0, 0, 0, 0⟩

/-- Create or overwrite the regular file at `p` (`open(..., 'wb')` followed
by a full write, or `os.open` with `O_CREAT`). -/
def HostFS.setFile (fs : HostFS) (p : FPath) (data : Bytes) : HostFS :=
  ⟨(p, .file data (fileStatFor data)) :: fs.entries.filter (fun e => e.1 ≠ p)⟩

/-- `os.makedirs(p, exist_ok=True)`: create every missing directory on the
way down to `p`. -/
def HostFS.makedirs (fs : HostFS) (p : FPath) : HostFS :=
  ⟨fs.entries ++ ((List.range (p.length + 1)).filterMap (fun n =>
    let q := p.take n
    if fs.pathExistsB q then none else some (q, .dir dirStatNew)))⟩

/- The filesystem callbacks. -/

/-- `BotWContent.open(partial, flags)`.  A writable open requires a work
directory (else `EROFS`); when `work_dir/p` does not exist yet the
copy-on-write promotion runs first: create the parent directories, fetch the
content-device file through the (cached!) `_get_file_from_content`, read
from its *current* cursor (`file.read(file.get_size())` with no prior
`seek`), and write the result to `work_dir/p`; the work-dir file is then
opened with the requested flags.  A read-only open goes through
`_get_file_from_partial`.  Either way a descriptor is allocated. -/
def openOp (s : Sys) (p : FPath) (flags : OFlags) : Except FsError (Nat × Sys) :=
  if flags.writableB then
    match s.work with
    | none => .error (.fuse .EROFS)
    | some w =>
      if w.pathExistsB p then
        match w.lookup p with
        | some (.file d _) =>
          let (hid, s1) := s.addHandle (.host d 0 true)
          let (fd, a) := s1.fd.allocate hid
          .ok (fd, { s1 with fd := a })
        | _ => .error (.oserr .EISDIR)
      else do
        let w1 := w.makedirs p.dropLast
        let (hid, s1) ← get_file_from_content_st { s with work := some w1 } p
        match s1.getHandle hid with
        | none => .error .keyError
        | some f =>
          let n := f.size
          let (bs, f1) := f.readF n
          let s2 := s1.setHandle hid f1
          match s2.work with
          | none => .error (.fuse .EROFS)   -- unreachable: work was set above
          | some w2 =>
            let w3 := w2.setFile p bs
            let (hid2, s3) := ({ s2 with work := some w3 }).addHandle (.host bs 0 true)
            let (fd, a) := s3.fd.allocate hid2
            .ok (fd, { s3 with fd := a })
  else do
    let (hid, s1) ← get_file_work_or_content s p
    let (fd, a) := s1.fd.allocate hid
    .ok (fd, { s1 with fd := a })

/-- `BotWContent.read(partial, length, offset, fd)`: look the handle up,
seek to `offset`, read up to `length` bytes. -/
def readOp (s : Sys) (fd length offset : Nat) : Except FsError (Bytes × Sys) :=
  match s.fd.get_entry fd with
  | none => .error .keyError
  | some hid =>
    match s.getHandle hid with
    | none => .error .keyError
    | some f =>
      let (bs, f2) := (f.seek offset).readF length
      .ok (bs, s.setHandle hid f2)

/-- `BotWContent.write(partial, buf, offset, fd)`: look the handle up, seek
to `offset`, write the buffer. -/
def writeOp (s : Sys) (fd : Nat) (buf : Bytes) (offset : Nat) :
    Except FsError (Nat × Sys) :=
  match s.fd.get_entry fd with
  | none => .error .keyError
  | some hid =>
    match s.getHandle hid with
    | none => .error .keyError
    | some f => do
      let (n, f2) ← (f.seek offset).writeF buf
      .ok (n, s.setHandle hid f2)

/-- `BotWContent.release(path, fd)`: free the descriptor. -/
def releaseOp (s : Sys) (fd : Nat) : Except FsError Sys :=
  if (s.fd.get_entry fd).isSome then .ok { s with fd := s.fd.free fd }
  else .error .keyError

/-- `BotWContent.create(partial, mode)`: requires a work directory; create
parent directories and open-or-create the file read-write. -/
def createOp (s : Sys) (p : FPath) : Except FsError (Nat × Sys) :=
  match s.work with
  | none => .error (.fuse .EROFS)
  | some w =>
    let w1 := w.makedirs p.dropLast
    match w1.lookup p with
    | some (.file d _) =>
      let (hid, s1) := ({ s with work := some w1 }).addHandle (.host d 0 true)
      let (fd, a) := s1.fd.allocate hid
      .ok (fd, { s1 with fd := a })
    | some (.dir _) => .error (.oserr .EISDIR)
    | none =>
      let w2 := w1.setFile p []
      let (hid, s1) := ({ s with work := some w2 }).addHandle (.host [] 0 true)
      let (fd, a) := s1.fd.allocate hid
      .ok (fd, { s1 with fd := a })

/-- `BotWContent.unlink(partial)`: `EROFS` unless the work directory holds
the path; then delete the host file. -/
def unlinkOp (s : Sys) (p : FPath) : Except FsError Sys :=
  match s.work with
  | none => .error (.fuse .EROFS)
  | some w =>
    if ¬ w.pathExistsB p then .error (.fuse .EROFS)
    else
      match w.lookup p with
      | some (.file _ _) => .ok { s with work := some ⟨w.entries.filter (fun e => e.1 ≠ p)⟩ }
      | _ => .error (.oserr .EISDIR)

/-- `BotWContent.rename(old, new)`: `EROFS` unless the work directory holds
`old`; then `os.rename` (the subtree moves, a previous target is replaced). -/
def renameOp (s : Sys) (old new : FPath) : Except FsError Sys :=
  match s.work with
  | none => .error (.fuse .EROFS)
  | some w =>
    if ¬ w.pathExistsB old then .error (.fuse .EROFS)
    else
      let kept := w.entries.filter (fun e =>
        ¬ (old.isPrefixOf e.1 ∨ new.isPrefixOf e.1))
      let moved := w.entries.filterMap (fun e =>
        if old.isPrefixOf e.1 then some (new ++ e.1.drop old.length, e.2) else none)
      .ok { s with work := some ⟨moved ++ kept⟩ }

/-- `BotWContent.rmdir(partial)`: `EROFS` unless the work directory holds the
path; `os.rmdir` then requires an empty directory. -/
def rmdirOp (s : Sys) (p : FPath) : Except FsError Sys :=
  match s.work with
  | none => .error (.fuse .EROFS)
  | some w =>
    if ¬ w.pathExistsB p then .error (.fuse .EROFS)
    else
      match w.lookup p with
      | some (.dir _) =>
        if w.childNames p = ∅ then
          .ok { s with work := some ⟨w.entries.filter (fun e => e.1 ≠ p)⟩ }
        else .error (.oserr .ENOTEMPTY)
      | _ => .error (.oserr .ENOTDIR)

/-- `BotWContent.mkdir(partial, mode)`: requires a work directory;
`os.makedirs` without `exist_ok` fails on an existing path. -/
def mkdirOp (s : Sys) (p : FPath) : Except FsError Sys :=
  match s.work with
  | none => .error (.fuse .EROFS)
  | some w =>
    if w.pathExistsB p then .error (.oserr .EEXIST)
    else .ok { s with work := some (w.makedirs p) }

/-- `BotWContent.truncate(partial, length)`: requires a work directory; open
`work_dir/p` as `r+b` and truncate (extension zero-pads). -/
def truncateOp (s : Sys) (p : FPath) (length : Nat) : Except FsError Sys :=
  match s.work with
  | none => .error (.fuse .EROFS)
  | some w =>
    match w.lookup p with
    | some (.file d _) =>
      .ok { s with work := some (w.setFile p (d.take length ++ List.replicate (length - d.length) 0)) }
    | some (.dir _) => .error (.oserr .EISDIR)
    | none => .error (.oserr .ENOENT)

/-- `_get_parent_directory_from_partial(path)`: resolve `path.parent` under
the work directory when it contains `path`, else under the content device. -/
def get_parent_dir_work_or_content (s : Sys) (p : FPath) : Except FsError Dir :=
  match s.work with
  | some w =>
    if w.pathExistsB p then get_directory s.roots s.parse (.workRoot w) p.dropLast
    else get_directory s.roots s.parse .contentRoot p.dropLast
  | none => get_directory s.roots s.parse .contentRoot p.dropLast

/-- `BotWContent.getattr(partial)`: stats from the parent directory; a path
with an archive extension is rewritten to a directory stat. -/
def getattrOp (s : Sys) (p : FPath) : Except FsError StatRec := do
  let parent ← get_parent_dir_work_or_content s p
  let st ← parent.get_file_stats (p.drop parent.relp.length)
  if isArchiveFilename p then .ok (change_st_to_directory st) else .ok st

/-- `BotWContent.readdir(partial)`: `{'.', '..'}`, plus the work directory's
entries when it has `p` as a directory, plus the content-device view's
entries (`FuseOSError`s from the latter are swallowed). -/
def readdirOp (s : Sys) (p : FPath) : Except FsError (Finset String) :=
  let base : Finset String := {".", ".."}
  let base2 : Finset String :=
    match s.work with
    | some w => if w.isdirB p then base ∪ w.childNames p else base
    | none => base
  match get_directory s.roots s.parse .contentRoot p with
  | .error e => if e.isFuse then .ok base2 else .error e
  | .ok d =>
    match d.list_files (p.drop d.relp.length) with
    | .error e => if e.isFuse then .ok base2 else .error e
    | .ok l => .ok (base2 ∪ l)

/- Bit-level facts about the stat-mode rewrites. -/

theorem testBit_61440 (i : Nat) :
    Nat.testBit 61440 i = (decide (12 ≤ i) && decide (i ≤ 15)) := by
  rcases Nat.lt_or_ge i 16 with hi | hi
  · interval_cases i <;> decide
  · have h1 : Nat.testBit 61440 i = false :=
      Nat.testBit_lt_two_pow (lt_of_lt_of_le (by norm_num)
        (Nat.pow_le_pow_right (by norm_num) hi))
    have h2 : ¬ i ≤ 15 := by omega
    simp [h1, h2]

theorem testBit_32768 (i : Nat) : Nat.testBit 32768 i = decide (i = 15) := by
  rcases Nat.lt_or_ge i 16 with hi | hi
  · interval_cases i <;> decide
  · have h1 : Nat.testBit 32768 i = false :=
      Nat.testBit_lt_two_pow (lt_of_lt_of_le (by norm_num)
        (Nat.pow_le_pow_right (by norm_num) hi))
    have h2 : i ≠ 15 := by omega
    simp [h1, h2]

theorem testBit_16384 (i : Nat) : Nat.testBit 16384 i = decide (i = 14) := by
  rcases Nat.lt_or_ge i 16 with hi | hi
  · interval_cases i <;> decide
  · have h1 : Nat.testBit 16384 i = false :=
      Nat.testBit_lt_two_pow (lt_of_lt_of_le (by norm_num)
        (Nat.pow_le_pow_right (by norm_num) hi))
    have h2 : i ≠ 14 := by omega
    simp [h1, h2]

theorem testBit_448 (i : Nat) :
    Nat.testBit 448 i = (decide (6 ≤ i) && decide (i ≤ 8)) := by
  rcases Nat.lt_or_ge i 16 with hi | hi
  · interval_cases i <;> decide
  · have h1 : Nat.testBit 448 i = false :=
      Nat.testBit_lt_two_pow (lt_of_lt_of_le (by norm_num)
        (Nat.pow_le_pow_right (by norm_num) hi))
    have h2 : ¬ i ≤ 8 := by omega
    simp [h1, h2]

theorem testBit_256 (i : Nat) : Nat.testBit 256 i = decide (i = 8) := by
  rcases Nat.lt_or_ge i 16 with hi | hi
  · interval_cases i <;> decide
  · have h1 : Nat.testBit 256 i = false :=
      Nat.testBit_lt_two_pow (lt_of_lt_of_le (by norm_num)
        (Nat.pow_le_pow_right (by norm_num) hi))
    have h2 : i ≠ 8 := by omega
    simp [h1, h2]

theorem testBit_128 (i : Nat) : Nat.testBit 128 i = decide (i = 7) := by
  rcases Nat.lt_or_ge i 16 with hi | hi
  · interval_cases i <;> decide
  · have h1 : Nat.testBit 128 i = false :=
      Nat.testBit_lt_two_pow (lt_of_lt_of_le (by norm_num)
        (Nat.pow_le_pow_right (by norm_num) hi))
    have h2 : i ≠ 7 := by omega
    simp [h1, h2]

theorem testBit_64 (i : Nat) : Nat.testBit 64 i = decide (i = 6) := by
  rcases Nat.lt_or_ge i 16 with hi | hi
  · interval_cases i <;> decide
  · have h1 : Nat.testBit 64 i = false :=
      Nat.testBit_lt_two_pow (lt_of_lt_of_le (by norm_num)
        (Nat.pow_le_pow_right (by norm_num) hi))
    have h2 : i ≠ 6 := by omega
    simp [h1, h2]

/-- `change_st_to_directory` turns a regular-file mode into a directory mode. -/
theorem mode_dir_of_reg (m : Nat) (h : m &&& S_IFMT = S_IFREG) :
    (((bitClear m S_IFREG) ||| S_IFDIR) ||| S_IRWXU) &&& S_IFMT = S_IFDIR := by
  simp only [S_IFMT, S_IFDIR, S_IFREG, S_IRWXU] at h ⊢
  apply Nat.eq_of_testBit_eq
  intro i
  have hm := congrArg (fun x => Nat.testBit x i) h
  simp only [Nat.testBit_and, testBit_61440, testBit_32768] at hm
  simp only [Nat.testBit_and, Nat.testBit_or, testBit_bitClear, testBit_61440,
    testBit_32768, testBit_16384, testBit_448]
  rcases Nat.lt_or_ge i 16 with hi | hi
  · interval_cases i <;> simp_all
  · have h2 : ¬ i ≤ 15 := by omega
    have h3 : i ≠ 14 := by omega
    simp [h2, h3]

/-- The member-stat rewrite keeps a regular-file mode regular. -/
theorem mode_reg_of_reg (m : Nat) (h : m &&& S_IFMT = S_IFREG) :
    (((bitClear (bitClear m S_IFDIR) S_IXUSR) ||| S_IFREG) ||| (S_IRUSR ||| S_IWUSR))
        &&& S_IFMT = S_IFREG := by
  simp only [S_IFMT, S_IFDIR, S_IFREG, S_IRUSR, S_IWUSR, S_IXUSR] at h ⊢
  apply Nat.eq_of_testBit_eq
  intro i
  have hm := congrArg (fun x => Nat.testBit x i) h
  simp only [Nat.testBit_and, testBit_61440, testBit_32768] at hm
  simp only [Nat.testBit_and, Nat.testBit_or, testBit_bitClear, testBit_61440,
    testBit_32768, testBit_16384, testBit_256, testBit_128, testBit_64]
  rcases Nat.lt_or_ge i 16 with hi | hi
  · interval_cases i <;> simp_all
  · have h2 : ¬ i ≤ 15 := by omega
    have h3 : i ≠ 15 := by omega
    simp [h2, h3]

/- Correctness of the descriptor allocator. -/

theorem countP_split_ge (l : List Nat) (fd : Nat) :
    l.countP (fun k => decide (fd ≤ k)) =
      l.countP (fun k => decide (k = fd)) + l.countP (fun k => decide (fd + 1 ≤ k)) := by
  induction l with
  | nil => simp
  | cons a t ih =>
    rcases Nat.lt_trichotomy a fd with h | h | h
    · have h1 : ¬ fd ≤ a := by omega
      have h2 : ¬ a = fd := by omega
      have h3 : ¬ fd + 1 ≤ a := by omega
      simp [List.countP_cons, h1, h2, h3, ih]
    · subst h
      have h1 : a ≤ a := Nat.le_refl a
      have h3 : ¬ a + 1 ≤ a := by omega
      simp [List.countP_cons, h1, h3, ih]
      omega
    · have h1 : fd ≤ a := by omega
      have h2 : ¬ a = fd := by omega
      have h3 : fd + 1 ≤ a := by omega
      simp [List.countP_cons, h1, h2, h3, ih]
      omega

theorem findFreeFd_spec (used : List Nat) :
    ∀ fuel fd, used.countP (fun k => decide (fd ≤ k)) < fuel →
      findFreeFd used fuel fd ∉ used ∧ fd ≤ findFreeFd used fuel fd ∧
        ∀ k, fd ≤ k → k < findFreeFd used fuel fd → k ∈ used := by
  intro fuel
  induction fuel with
  | zero => intro fd h; exact absurd h (Nat.not_lt_zero _)
  | succ n ih =>
    intro fd h
    by_cases hmem : fd ∈ used
    · have hpos : 0 < used.countP (fun k => decide (k = fd)) := by
        rw [List.countP_pos_iff]
        exact ⟨fd, hmem, by simp⟩
      have hcount : used.countP (fun k => decide (fd + 1 ≤ k)) < n := by
        have hsplit := countP_split_ge used fd
        omega
      have ihh := ih (fd + 1) hcount
      have heq : findFreeFd used (n + 1) fd = findFreeFd used n (fd + 1) := by
        simp [findFreeFd, hmem]
      refine ⟨heq ▸ ihh.1, ?_, ?_⟩
      · rw [heq]; omega
      · intro k h1 h2
        rw [heq] at h2
        rcases Nat.eq_or_lt_of_le h1 with rfl | hlt
        · exact hmem
        · exact ihh.2.2 k (by omega) h2
    · have heq : findFreeFd used (n + 1) fd = fd := by
        simp [findFreeFd, hmem]
      rw [heq]
      exact ⟨hmem, Nat.le_refl fd, fun k h1 h2 => absurd (Nat.lt_of_le_of_lt h1 h2) (Nat.lt_irrefl fd)⟩

/-- `allocate` returns a descriptor that is not currently mapped, at least
`_next_fd`, and with every unmapped gap in between ruled out. -/
theorem fdalloc_allocate_fresh {T : Type} (a : FdAlloc T) (x : T) :
    (a.allocate x).1 ∉ a.keys ∧ a.nextFd ≤ (a.allocate x).1 ∧
      ∀ k, a.nextFd ≤ k → k < (a.allocate x).1 → k ∈ a.keys := by
  have h : a.keys.countP (fun k => decide (a.nextFd ≤ k)) < a.keys.length + 1 :=
    Nat.lt_succ_of_le (List.countP_le_length _)
  exact findFreeFd_spec a.keys (a.keys.length + 1) a.nextFd h

theorem fdalloc_allocate_keys {T : Type} (a : FdAlloc T) (x : T) :
    ((a.allocate x).2).keys = (a.allocate x).1 :: a.keys := rfl

theorem fdalloc_allocate_nextFd {T : Type} (a : FdAlloc T) (x : T) :
    ((a.allocate x).2).nextFd = (a.allocate x).1 + 1 := rfl

/-- Every descriptor below the rolling hint is mapped. -/
def belowAllocated {T : Type} (a : FdAlloc T) : Prop :=
  ∀ k, k < a.nextFd → k ∈ a.keys

/-- States of the descriptor table reachable by `allocate` / `free` calls
(with frees only of currently mapped descriptors). -/
inductive FdReachable {T : Type} : FdAlloc T → Prop where
  | init : FdReachable ⟨[], 0⟩
  | alloc {a : FdAlloc T} (x : T) : FdReachable a → FdReachable (a.allocate x).2
  | dealloc {a : FdAlloc T} (fd : Nat) : FdReachable a → fd ∈ a.keys → FdReachable (a.free fd)

theorem fdReachable_below {T : Type} {a : FdAlloc T} (h : FdReachable a) :
    belowAllocated a := by
  induction h with
  | init => intro k hk; exact absurd hk (Nat.not_lt_zero k)
  | @alloc a x _ ih =>
    intro k hk
    rw [fdalloc_allocate_nextFd] at hk
    rw [fdalloc_allocate_keys]
    rcases Nat.lt_or_ge k a.nextFd with h1 | h1
    · exact List.mem_cons_of_mem _ (ih k h1)
    · rcases Nat.eq_or_lt_of_le (Nat.le_of_lt_succ hk) with rfl | h2
      · exact List.mem_cons_self _ _
      · exact List.mem_cons_of_mem _ ((fdalloc_allocate_fresh a x).2.2 k h1 h2)
  | @dealloc a fd _ hmem ih =>
    intro k hk
    have h1 : k < a.nextFd ∧ k < fd := by
      constructor <;> [exact lt_of_lt_of_le hk (min_le_left _ _);
        exact lt_of_lt_of_le hk (min_le_right _ _)]
    have h2 := ih k h1.1
    simp only [FdAlloc.keys, List.mem_map] at h2 ⊢
    obtain ⟨e, he, rfl⟩ := h2
    exact ⟨e, List.mem_filter.mpr ⟨he, by simp; omega⟩, rfl⟩

/- Unfolding lemmas for directory resolution. -/

theorem get_directory_go_succ_content (roots : List HostFS)
    (parse : Bytes → Option Archive) (fuel : Nat) (p : FPath) :
    get_directory_go roots parse .contentRoot (fuel + 1) p =
      match tryOpenDir roots p with
      | some d => .ok d
      | none =>
        if isArchiveFilename p ∧ ¬ deviceIsDir roots p then do
          let parent ← get_directory_go roots parse .contentRoot fuel p.dropLast
          let arc ← get_sarc_arc parse parent p
          .ok (.archive p arc parent)
        else get_directory_go roots parse .contentRoot fuel p.dropLast := rfl

theorem get_directory_eq_content (roots : List HostFS)
    (parse : Bytes → Option Archive) (p : FPath)
    (hdir : deviceIsDir roots p = true) :
    get_directory roots parse .contentRoot p = .ok (.content roots p) := by
  unfold get_directory
  rw [get_directory_go_succ_content]
  simp [tryOpenDir, hdir]

theorem length_eq_dropLast_succ {p : FPath} (hne : p ≠ []) :
    p.length = p.dropLast.length + 1 := by
  have h1 := List.length_dropLast p
  have h2 : p.length ≠ 0 := fun h => hne (List.length_eq_zero.mp h)
  omega

theorem get_directory_eq_archive_step (roots : List HostFS)
    (parse : Bytes → Option Archive) (p : FPath) (hne : p ≠ [])
    (hdir : deviceIsDir roots p = false) (harc : isArchiveFilename p = true) :
    get_directory roots parse .contentRoot p =
      (do
        let parent ← get_directory roots parse .contentRoot p.dropLast
        let arc ← get_sarc_arc parse parent p
        .ok (.archive p arc parent)) := by
  unfold get_directory
  rw [get_directory_go_succ_content]
  rw [length_eq_dropLast_succ hne]
  simp [tryOpenDir, hdir, harc]

/-- `dropLast p ++ (p stripped of its first `dropLast p`.length segments)`
recovers `p` (the `get_path_relative_to_this` round trip). -/
theorem dropLast_append_drop (p : FPath) :
    p.dropLast ++ p.drop p.dropLast.length = p := by
  conv_rhs => rw [← List.take_append_drop p.dropLast.length p]
  congr 1
  rw [List.length_dropLast, ← List.dropLast_eq_take]

theorem dropLast_append_drop2 (p : FPath) :
    p.dropLast ++ p.drop (p.length - 1) = p := by
  have h := dropLast_append_drop p
  rwa [List.length_dropLast] at h

theorem find?_congr_pred {α : Type} (l : List α) (f g : α → Bool)
    (h : ∀ x ∈ l, f x = g x) : l.find? f = l.find? g := by
  induction l with
  | nil => rfl
  | cons a t ih =>
    have ha := h a (List.mem_cons_self a t)
    have ht := fun x hx => h x (List.mem_cons_of_mem a hx)
    rw [List.find?_cons, List.find?_cons, ha, ih ht]

/-- When no root holds `p` as a directory, `os.path.exists` and
`os.path.isfile` agree on `p` in every root, so the two `_find_parent`
scans coincide. -/
theorem findParent_exists_eq_isfile (roots : List HostFS) (p : FPath)
    (hne : p ≠ []) (hdir : deviceIsDir roots p = false) :
    findParent HostFS.pathExistsB roots p = findParent HostFS.isfileB roots p := by
  unfold findParent
  rw [if_neg hne, if_neg hne]
  apply find?_congr_pred
  intro fs hfs
  have hmem : fs ∈ roots := List.mem_reverse.mp hfs
  have hd : fs.isdirB p = false := by
    have h2 := List.any_eq_false.mp (by simpa [deviceIsDir] using hdir)
    simpa using h2 fs hmem
  unfold HostFS.pathExistsB HostFS.isfileB at *
  unfold HostFS.isdirB at hd
  cases hp : fs.lookup p with
  | none => simp [hp, List.isEmpty_eq_false.mpr hne]
  | some e =>
    cases e with
    | file d st => simp [hp, List.isEmpty_eq_false.mpr hne]
    | dir st => simp [hp, List.isEmpty_eq_false.mpr hne] at hd ⊢

/-- Opening a plain content file: the parent resolves to the overlay content
directory, and the scan from the last root to the first opens the file in
the winning root. -/
theorem get_file_content_file (roots : List HostFS)
    (parse : Bytes → Option Archive) (p : FPath) (fsw : HostFS) (b : Bytes)
    (st : StatRec) (flags : OFlags)
    (hpar : deviceIsDir roots p.dropLast = true)
    (hfind : findParent HostFS.isfileB roots p = some fsw)
    (hlook : fsw.lookup p = some (.file b st)) :
    get_file roots parse .contentRoot p flags = .ok (.hostF b flags.writableB) := by
  unfold get_file
  rw [get_directory_eq_content _ _ _ hpar]
  simp only [bind, Except.bind]
  simp [Dir.open_file, Dir.relp, dropLast_append_drop, dropLast_append_drop2, hfind, hlook]

/-- Resolving an archive-named, non-directory content path to an
`ArchiveDirectory`: the parent is the overlay content directory, the archive
file is opened in the winning root and its bytes parse. -/
theorem get_directory_archive_of (roots : List HostFS)
    (parse : Bytes → Option Archive) (p : FPath) (fsw : HostFS) (b : Bytes)
    (st : StatRec) (arc : Archive) (hne : p ≠ [])
    (hdir : deviceIsDir roots p = false) (harc : isArchiveFilename p = true)
    (hpar : deviceIsDir roots p.dropLast = true)
    (hfind : findParent HostFS.isfileB roots p = some fsw)
    (hlook : fsw.lookup p = some (.file b st))
    (hparse : parse b = some arc) :
    get_directory roots parse .contentRoot p =
      .ok (.archive p arc (.content roots p.dropLast)) := by
  rw [get_directory_eq_archive_step _ _ _ hne hdir harc,
    get_directory_eq_content _ _ _ hpar]
  simp only [bind, Except.bind]
  simp [get_sarc_arc, Dir.open_file, Dir.relp, dropLast_append_drop, dropLast_append_drop2,
    hfind, hlook, hparse, PFile.data, bind, Except.bind]

/-- State after a read-only `open` on a fresh mount with no work directory:
one handle, one cache entry, one descriptor. -/
def sysAfterOpen0 (roots : List HostFS) (parse : Bytes → Option Archive)
    (p : FPath) (pf : PFile) : Sys :=
  ⟨roots, parse, none, [(0, pf.toFileH)], 1, [(p, 0)], ⟨[(0, 0)], 1⟩⟩

theorem openOp_init_ro (roots : List HostFS) (parse : Bytes → Option Archive)
    (p : FPath) (pf : PFile)
    (h : get_file roots parse .contentRoot p .rdonly = .ok pf) :
    openOp (Sys.init roots none parse) p .rdonly =
      .ok (0, sysAfterOpen0 roots parse p pf) := by
  simp [openOp, OFlags.writableB, get_file_work_or_content, get_file_from_content_st,
    Sys.init, h, Sys.addHandle, FdAlloc.allocate, FdAlloc.keys, findFreeFd,
    sysAfterOpen0, bind, Except.bind]

theorem readOp_afterOpen_full (roots : List HostFS) (parse : Bytes → Option Archive)
    (p : FPath) (pf : PFile) :
    ∃ s2, readOp (sysAfterOpen0 roots parse p pf) 0 pf.data.length 0 =
      .ok (pf.data, s2) := by
  cases pf with
  | hostF d w =>
    refine ⟨⟨roots, parse, none, [(0, .host d d.length w)], 1, [(p, 0)], ⟨[(0, 0)], 1⟩⟩, ?_⟩
    simp [readOp, sysAfterOpen0, FdAlloc.get_entry, Sys.getHandle, PFile.toFileH,
      FileH.seek, FileH.readF, Sys.setHandle, PFile.data]
  | memF d =>
    refine ⟨sysAfterOpen0 roots parse p (.memF d), ?_⟩
    by_cases hd : d.length = 0
    · simp [readOp, sysAfterOpen0, FdAlloc.get_entry, Sys.getHandle, PFile.toFileH,
        FileH.seek, FileH.readF, Sys.setHandle, PFile.data, hd,
        List.length_eq_zero.mp hd]
    · simp [readOp, sysAfterOpen0, FdAlloc.get_entry, Sys.getHandle, PFile.toFileH,
        FileH.seek, FileH.readF, Sys.setHandle, PFile.data, hd]

theorem joinPath_single (s : String) : joinPath [s] = s := rfl

/-- Opening an archive member (any path whose parent resolves to an
`ArchiveDirectory`, also a nested one): the bare/slash-prefixed member bytes
come back as an in-memory handle. -/
theorem get_file_archive_member (roots : List HostFS)
    (parse : Bytes → Option Archive) (p relp : FPath) (arc : Archive)
    (par : Dir) (b : Bytes) (flags : OFlags)
    (hdir : get_directory roots parse .contentRoot p.dropLast =
      .ok (.archive relp arc par))
    (hraw : joinPath (p.drop relp.length) ≠ SELF_FILE_NAME)
    (hmem : arc.lookup_member (joinPath (p.drop relp.length)) = some b) :
    get_file roots parse .contentRoot p flags = .ok (.memF b) := by
  unfold get_file
  rw [hdir]
  simp [bind, Except.bind, Dir.open_file, Dir.relp, hraw, hmem]

/-- Opening `…/.__RAW_ARCHIVE__`: delegates to the parent directory, read
only, at the archive's own path. -/
theorem get_file_raw_member (roots : List HostFS)
    (parse : Bytes → Option Archive) (p relp : FPath) (arc : Archive)
    (par : Dir) (pf : PFile) (flags : OFlags)
    (hdir : get_directory roots parse .contentRoot p.dropLast =
      .ok (.archive relp arc par))
    (heq : joinPath (p.drop relp.length) = SELF_FILE_NAME)
    (hopen : par.open_file (relp.drop par.relp.length) .rdonly = .ok pf) :
    get_file roots parse .contentRoot p flags = .ok pf := by
  unfold get_file
  rw [hdir]
  simp only [bind, Except.bind, Dir.open_file, Dir.relp, heq, if_true]
  exact hopen

/-- Modelled from the spec's words (claim: "the set of immediate archive
children: first path segments of member names, with leading slashes
stripped"): the name contributed to the archive root listing by one member. -/
def specChildName (n : String) : String :=
  String.mk ((stripSlashC n.toList).takeWhile (fun c => c ≠ '/'))

/-- Modelled from the spec's words: the immediate archive children of the
archive root. -/
def specArchiveChildren (a : Archive) : Finset String :=
  (a.list_files.map specChildName).toFinset

/-- The source's root listing computes exactly the spec's child set plus the
raw-archive pseudofile. -/
theorem archiveListFiles_root (a : Archive) :
    archiveListFiles a [] = specArchiveChildren a ∪ {SELF_FILE_NAME} := by
  have h : archiveChildOf [] = fun n => some (specChildName n) := by
    funext n
    simp [archiveChildOf, specChildName]
  unfold archiveListFiles specArchiveChildren
  simp only [h]
  have h2 : ∀ l : List String, l.filterMap (fun n => some (specChildName n)) =
      l.map specChildName := by
    intro l
    induction l with
    | nil => rfl
    | cons a t ih => simp [List.filterMap_cons, ih]
  simp [h, h2]

theorem readF_full (pf : PFile) :
    ((pf.toFileH.seek 0).readF pf.data.length).1 = pf.data := by
  cases pf with
  | hostF d w => simp [PFile.toFileH, PFile.data, FileH.seek, FileH.readF]
  | memF d =>
    by_cases hd : d.length = 0
    · simp [PFile.toFileH, PFile.data, FileH.seek, FileH.readF, hd,
        List.length_eq_zero.mp hd]
    · simp [PFile.toFileH, PFile.data, FileH.seek, FileH.readF, hd]

/-- State after the first full read on descriptor 0 of `sysAfterOpen0`. -/
def sysAfterRead0 (roots : List HostFS) (parse : Bytes → Option Archive)
    (p : FPath) (pf : PFile) : Sys :=
  (sysAfterOpen0 roots parse p pf).setHandle 0
    ((pf.toFileH.seek 0).readF pf.data.length).2

theorem readOp_afterOpen0 (roots : List HostFS) (parse : Bytes → Option Archive)
    (p : FPath) (pf : PFile) :
    readOp (sysAfterOpen0 roots parse p pf) 0 pf.data.length 0 =
      .ok (pf.data, sysAfterRead0 roots parse p pf) := by
  have hb := readF_full pf
  simp [readOp, sysAfterOpen0, sysAfterRead0, FdAlloc.get_entry, Sys.getHandle,
    Sys.setHandle, hb]

/- Shared concrete fixtures for witnesses and counterexamples. -/

deriving instance DecidableEq for Except

def stD0 : StatRec := ⟨16877, 0, 1, 0, 0, 0, 0, 0⟩

def stF0 : StatRec := ⟨33188, 2, 1, 0, 0, 0, 0, 0⟩

def fxRoot : HostFS :=
  ⟨[([], .dir stD0), (["a.txt"], .file [104, 105] stF0),
    (["pack.sarc"], .file [9] stF0), (["empty.sarc"], .file [5] stF0)]⟩

def fxArc : Archive :=
  ⟨[("foo.bin", [120]), ("bar/baz.bin", [121]), ("/sfoo.bin", [99])]⟩

def fxEmptyArc : Archive := ⟨[]⟩

def fxParse : Bytes → Option Archive :=
  fun b => if b = [9] then some fxArc else if b = [5] then some fxEmptyArc else none

def fxSys : Sys := Sys.init [fxRoot] none fxParse

/- Extractors for stating closed facts about `Except`-valued runs (the `Sys`
state carries a function field, so whole-state equality is not decidable;
facts are stated about decidable projections instead). -/

def exOkFd (r : Except FsError (Nat × Sys)) : Option Nat :=
  match r with
  | .ok (fd, _) => some fd
  | _ => none

def exOkSys (r : Except FsError (Nat × Sys)) (dflt : Sys) : Sys :=
  match r with
  | .ok (_, s) => s
  | _ => dflt

def exErr (r : Except FsError (Nat × Sys)) : Option FsError :=
  match r with
  | .error e => some e
  | _ => none

def exStat (r : Except FsError StatRec) : Option StatRec :=
  match r with
  | .ok st => some st
  | _ => none

def exSet (r : Except FsError (Finset String)) : Option (Finset String) :=
  match r with
  | .ok l => some l
  | _ => none

/-- Content of the work-directory file at `p`, if any. -/
def workData (s : Sys) (p : FPath) : Option Bytes :=
  s.work.bind (fun w =>
    match w.lookup p with
    | some (.file d _) => some d
    | _ => none)

/-- Claim C10: reads on a memory-backed handle are total and clamped — after
`seek(off)`, `read(len)` returns exactly the bytes in `[off, min(off+len, n))`
(computed here as `(take (min (off+len) n) data).drop off`), in particular the
empty string — with no error, as `readF` is error-free by construction —
whenever `off ≥ n`; only `write` fails, with `EROFS`. -/
theorem claim_C10_memfile_read_clamped (data : Bytes) (pos off len : Nat) :
    (((FileH.mem data pos).seek off).readF len).1 =
        (data.take (min (off + len) data.length)).drop off ∧
    (data.length ≤ off → (((FileH.mem data pos).seek off).readF len).1 = []) ∧
    (∀ buf, ((FileH.mem data pos).seek off).writeF buf = .error (.fuse .EROFS)) := by
  refine ⟨?_, ?_, fun buf => rfl⟩
  · simp only [FileH.seek, FileH.readF]
    rw [List.drop_take]
    rcases Nat.lt_or_ge data.length (off + len) with h1 | h1
    · have he : min (off + len) data.length = data.length := by omega
      rw [if_pos h1, he]
      by_cases h2 : data.length - off = 0
      · simp [h2]
      · simp [h2]
    · have he : min (off + len) data.length = off + len := by omega
      have h1n : ¬ data.length < off + len := by omega
      rw [if_neg h1n, he]
      by_cases h2 : len = 0
      · simp [h2]
      · have : off + len - off = len := by omega
        simp [h2, this]
  · intro hoff
    simp only [FileH.seek, FileH.readF]
    rcases Nat.lt_or_ge data.length (off + len) with h1 | h1
    · have h2 : data.length - off = 0 := by omega
      simp [h1, h2]
    · have h2 : len = 0 := by omega
      subst h2
      have h1n : ¬ data.length < off := by omega
      simp [h1n]

/-- Claim C10 witness: a 3-byte buffer, reading past the end. -/
theorem claim_C10_witness :
    (((FileH.mem [1, 2, 3] 0).seek 5).readF 2).1 =
        (([1, 2, 3] : Bytes).take (min 7 3)).drop 5 ∧
    (((FileH.mem [1, 2, 3] 0).seek 5).readF 2).1 = [] ∧
    ((FileH.mem [1, 2, 3] 0).seek 5).writeF [9] = .error (.fuse .EROFS) := by
  have h := claim_C10_memfile_read_clamped [1, 2, 3] 0 5 2
  exact ⟨h.1, h.2.1 (by decide), h.2.2 [9]⟩

/-- Claim C8: in every reachable descriptor-table state, `allocate(handle)` returns
the smallest non-negative integer not currently mapped and sets the rolling
hint to that integer plus one (and maps it); `free(fd)` of a mapped `fd`
removes the mapping and sets the hint to `min(hint, fd)`. -/
theorem claim_C8_allocate_free {T : Type} (a : FdAlloc T) (x : T) (fd : Nat)
    (hreach : FdReachable a) :
    ((a.allocate x).1 ∉ a.keys ∧ (∀ k, k ∉ a.keys → (a.allocate x).1 ≤ k) ∧
      ((a.allocate x).2).nextFd = (a.allocate x).1 + 1 ∧
      ((a.allocate x).2).fdMap = ((a.allocate x).1, x) :: a.fdMap) ∧
    (fd ∈ a.keys →
      (a.free fd).fdMap = a.fdMap.filter (fun e => e.1 ≠ fd) ∧
      (a.free fd).nextFd = min a.nextFd fd) := by
  have hfresh := fdalloc_allocate_fresh a x
  have hbelow := fdReachable_below hreach
  refine ⟨⟨hfresh.1, ?_, rfl, rfl⟩, fun _ => ⟨rfl, rfl⟩⟩
  intro k hk
  by_contra hlt
  push_neg at hlt
  rcases Nat.lt_or_ge k a.nextFd with h1 | h1
  · exact hk (hbelow k h1)
  · exact hk (hfresh.2.2 k h1 hlt)

/-- Claim C8 witness: the state after `allocate 7; allocate 5; free 0` — a hole at
descriptor 0 — allocates 0 next, and `free` behaves as stated. -/
theorem claim_C8_witness :
    ((⟨[(1, 5)], 0⟩ : FdAlloc Nat).allocate 9).1 = 0 ∧
    (0 : Nat) ∉ (⟨[(1, 5)], 0⟩ : FdAlloc Nat).keys ∧
    (((⟨[(1, 5)], 0⟩ : FdAlloc Nat).allocate 9).2).nextFd = 1 ∧
    (((⟨[(1, 5)], 0⟩ : FdAlloc Nat).allocate 9).2).fdMap = [(0, 9), (1, 5)] ∧
    ((⟨[(1, 5)], 0⟩ : FdAlloc Nat).free 1).fdMap = [] ∧
    ((⟨[(1, 5)], 0⟩ : FdAlloc Nat).free 1).nextFd = 0 := by
  have r0 : FdReachable (⟨[], 0⟩ : FdAlloc Nat) := .init
  have r1 : FdReachable (⟨[(0, 7)], 1⟩ : FdAlloc Nat) := .alloc 7 r0
  have r2 : FdReachable (⟨[(1, 5), (0, 7)], 2⟩ : FdAlloc Nat) := .alloc 5 r1
  have r3 : FdReachable (⟨[(1, 5)], 0⟩ : FdAlloc Nat) := .dealloc 0 r2 (by decide)
  have h := claim_C8_allocate_free (⟨[(1, 5)], 0⟩ : FdAlloc Nat) 9 1 r3
  refine ⟨by decide, h.1.1, by decide, by decide, ?_, ?_⟩
  · exact (h.2 (by decide)).1.trans (by decide)
  · exact (h.2 (by decide)).2.trans (by decide)

/-- Claim C7 counterexample: with no work directory, two successive read-only
`open("/a.txt")` calls return the distinct live descriptors 0 and 1, but —
because `_get_file_from_content` caches file objects by path — both map to
the *same* handle object (identity 0), so distinct live descriptors do not
map to distinct handles. -/
theorem claim_C7_counterexample :
    exOkFd (openOp fxSys ["a.txt"] .rdonly) = some 0 ∧
    exOkFd (openOp (exOkSys (openOp fxSys ["a.txt"] .rdonly) fxSys) ["a.txt"] .rdonly)
      = some 1 ∧
    (exOkSys (openOp (exOkSys (openOp fxSys ["a.txt"] .rdonly) fxSys) ["a.txt"] .rdonly)
        fxSys).fd.get_entry 0 = some 0 ∧
    (exOkSys (openOp (exOkSys (openOp fxSys ["a.txt"] .rdonly) fxSys) ["a.txt"] .rdonly)
        fxSys).fd.get_entry 1 = some 0 ∧
    (0 : Nat) ≠ 1 := by
  decide

/-- Claim C7 amended: a descriptor value is never reallocated while it is live —
`allocate` only ever returns a descriptor that is not currently mapped, and
the previously mapped descriptors stay mapped — but distinct live
descriptors may share one file handle (and hence one seek cursor) when
read-only opens of the same path are served from the file-object cache. -/
theorem claim_C7_amended_no_reuse {T : Type} (a : FdAlloc T) (x : T) :
    (a.allocate x).1 ∉ a.keys ∧
    ((a.allocate x).2).keys = (a.allocate x).1 :: a.keys :=
  ⟨(fdalloc_allocate_fresh a x).1, rfl⟩

/-- Claim C3 counterexample: with no work directory, a read-only `open` of a plain
content file yields a host-backed descriptor opened `O_RDONLY`; the `write`
callback on it fails with the OS's `EBADF` (bad file descriptor), not with
`EROFS` as the claim states for every `write` invocation. -/
theorem claim_C3_counterexample :
    exOkFd (openOp fxSys ["a.txt"] .rdonly) = some 0 ∧
    exErr (writeOp (exOkSys (openOp fxSys ["a.txt"] .rdonly) fxSys) 0 [120] 0)
      = some (.oserr .EBADF) ∧
    (FsError.oserr .EBADF) ≠ (FsError.fuse .EROFS) := by
  decide

/-- Claim C3 amended: with no work directory configured, `create`, `unlink`,
`rename`, `rmdir`, `mkdir` and `truncate` fail with `EROFS` for every path,
and so does a writable `open`; the `write` callback fails with `EROFS`
whenever the descriptor's handle is memory-backed (an archive member), and
with the OS's `EBADF` on a host-backed handle opened read-only. -/
theorem claim_C3_amended_readonly (s : Sys) (p old new : FPath) (len off : Nat)
    (buf : Bytes) (fd : Nat) (flags : OFlags) (hw : s.work = none) :
    (flags.writableB = true → openOp s p flags = .error (.fuse .EROFS)) ∧
    createOp s p = .error (.fuse .EROFS) ∧
    unlinkOp s p = .error (.fuse .EROFS) ∧
    renameOp s old new = .error (.fuse .EROFS) ∧
    rmdirOp s p = .error (.fuse .EROFS) ∧
    mkdirOp s p = .error (.fuse .EROFS) ∧
    truncateOp s p len = .error (.fuse .EROFS) ∧
    (∀ hid d pos, s.fd.get_entry fd = some hid → s.getHandle hid = some (.mem d pos) →
      writeOp s fd buf off = .error (.fuse .EROFS)) ∧
    (∀ hid d pos, s.fd.get_entry fd = some hid →
      s.getHandle hid = some (.host d pos false) →
      writeOp s fd buf off = .error (.oserr .EBADF)) := by
  refine ⟨?_, ?_, ?_, ?_, ?_, ?_, ?_, ?_, ?_⟩
  · intro hf
    simp [openOp, hf, hw]
  · simp [createOp, hw]
  · simp [unlinkOp, hw]
  · simp [renameOp, hw]
  · simp [rmdirOp, hw]
  · simp [mkdirOp, hw]
  · simp [truncateOp, hw]
  · intro hid d pos h1 h2
    simp [writeOp, h1, h2, FileH.seek, FileH.writeF, bind, Except.bind]
  · intro hid d pos h1 h2
    simp [writeOp, h1, h2, FileH.seek, FileH.writeF, bind, Except.bind]

/-- Claim C3 amended witness: a fresh read-only mount; the guarded callbacks all
return `EROFS`; `write` on a memory-backed member handle returns `EROFS`,
`write` on the read-only host handle for `a.txt` returns `EBADF`. -/
theorem claim_C3_witness :
    openOp fxSys ["a.txt"] .rdwr = .error (.fuse .EROFS) ∧
    createOp fxSys ["a.txt"] = .error (.fuse .EROFS) ∧
    unlinkOp fxSys ["a.txt"] = .error (.fuse .EROFS) ∧
    renameOp fxSys ["a.txt"] ["b.txt"] = .error (.fuse .EROFS) ∧
    rmdirOp fxSys ["a.txt"] = .error (.fuse .EROFS) ∧
    mkdirOp fxSys ["new"] = .error (.fuse .EROFS) ∧
    truncateOp fxSys ["a.txt"] 0 = .error (.fuse .EROFS) ∧
    writeOp (exOkSys (openOp fxSys ["pack.sarc", "foo.bin"] .rdonly) fxSys) 0 [1] 0
      = .error (.fuse .EROFS) ∧
    writeOp (exOkSys (openOp fxSys ["a.txt"] .rdonly) fxSys) 0 [1] 0
      = .error (.oserr .EBADF) := by
  have h1 := claim_C3_amended_readonly fxSys ["a.txt"] ["a.txt"] ["b.txt"] 0 0 [1] 0 .rdwr rfl
  have h2 := claim_C3_amended_readonly
    (exOkSys (openOp fxSys ["pack.sarc", "foo.bin"] .rdonly) fxSys)
    ["a.txt"] ["a.txt"] ["b.txt"] 0 0 [1] 0 .rdwr (by decide)
  have h3 := claim_C3_amended_readonly
    (exOkSys (openOp fxSys ["a.txt"] .rdonly) fxSys)
    ["a.txt"] ["a.txt"] ["b.txt"] 0 0 [1] 0 .rdwr (by decide)
  refine ⟨h1.1 rfl, h1.2.1, h1.2.2.1, h1.2.2.2.1, h1.2.2.2.2.1, h1.2.2.2.2.2.1,
    h1.2.2.2.2.2.2.1, ?_, ?_⟩
  · exact h2.2.2.2.2.2.2.2.1 0 [120] 0 (by decide) (by decide)
  · exact h3.2.2.2.2.2.2.2.2 0 [104, 105] 0 (by decide) (by decide)

/- Claim C5 fixture: the archive file has host mode 0o100755 (rwxr-xr-x). -/

def fx755Root : HostFS :=
  ⟨[([], .dir stD0), (["pack.sarc"], .file [9] ⟨33261, 2, 1, 0, 0, 0, 0, 0⟩)]⟩

def fx755Sys : Sys := Sys.init [fx755Root] none fxParse

/-- Claim C5 counterexample: with an archive file of host mode `0o100755`, the
synthesized stat of member `foo.bin` has mode `0o100655` — the group and
other execute bits (`0o011`) survive, because the code clears only
`S_IXUSR`; so the claim's "clears the directory and execute bits" fails as
stated (the claimed result would have `mode &&& 0o111 = 0`). -/
theorem claim_C5_counterexample :
    exStat (getattrOp fx755Sys ["pack.sarc", "foo.bin"])
      = some ⟨33197, 1, 1, 0, 0, 0, 0, 0⟩ ∧
    (33197 &&& 73) ≠ 0 := by
  decide

/-- Claim C5 amended: for an archive member `m` (matched by name with or without a
leading slash, as the first exact hit of the scan loop), the synthesized stat
starts from the stat of the archive file itself, clears the directory bit
and the *user* execute bit, sets the regular-file bit and user read+write
bits, and sets the size to the contained file's size as reported by the
archive; hence `getattr(m).size = archive.size_of(m)` and, when the archive
file itself is a regular file, the member's mode is regular. -/
theorem claim_C5_amended_member_stat (roots : List HostFS)
    (parse : Bytes → Option Archive) (p relp : FPath) (arc : Archive)
    (par : Dir) (ast : StatRec) (f : String)
    (hdir : get_directory roots parse .contentRoot p.dropLast =
      .ok (.archive relp arc par))
    (hast : par.get_file_stats (relp.drop par.relp.length) = .ok ast)
    (hraw : joinPath (p.drop relp.length) ≠ SELF_FILE_NAME)
    (hfind : statMatchLoop (joinPath (p.drop relp.length)) arc.list_files
      = some (.exact f))
    (harc : isArchiveFilename p = false)
    (hreg : ast.st_mode &&& S_IFMT = S_IFREG) :
    getattrOp (Sys.init roots none parse) p =
      .ok { ast with
            st_mode := ((bitClear (bitClear ast.st_mode S_IFDIR) S_IXUSR) ||| S_IFREG)
                         ||| (S_IRUSR ||| S_IWUSR)
            st_size := arc.get_file_size f } ∧
    (((bitClear (bitClear ast.st_mode S_IFDIR) S_IXUSR) ||| S_IFREG)
        ||| (S_IRUSR ||| S_IWUSR)) &&& S_IFMT = S_IFREG := by
  refine ⟨?_, mode_reg_of_reg ast.st_mode hreg⟩
  simp only [Dir.relp] at hast
  simp [getattrOp, get_parent_dir_work_or_content, Sys.init, hdir, bind, Except.bind,
    Dir.get_file_stats, Dir.relp, hast, hraw, member_stats, hfind, harc]

/-- Claim C5 amended witness: member `foo.bin` of `pack.sarc` (host mode
`0o100644`): size 1 and a regular mode. -/
theorem claim_C5_witness :
    getattrOp fxSys ["pack.sarc", "foo.bin"]
      = .ok ⟨33188, 1, 1, 0, 0, 0, 0, 0⟩ ∧
    (33188 &&& S_IFMT) = S_IFREG := by
  have h := claim_C5_amended_member_stat [fxRoot] fxParse ["pack.sarc", "foo.bin"]
    ["pack.sarc"] fxArc (.content [fxRoot] []) stF0 "foo.bin"
    (by decide) (by decide) (by decide) (by decide) (by decide) (by decide)
  exact ⟨h.1.trans (by decide), by decide⟩

/- Claim C9 fixture: `pack.sarc` contains a member that is itself a parsable
archive, `inner.sarc`. -/

def fx9Inner : Archive := ⟨[("a.txt", [1])]⟩

def fx9Outer : Archive := ⟨[("inner.sarc", [7])]⟩

def fx9Parse : Bytes → Option Archive :=
  fun b => if b = [9] then some fx9Outer else if b = [7] then some fx9Inner else none

def fx9Root : HostFS := ⟨[([], .dir stD0), (["pack.sarc"], .file [9] stF0)]⟩

def fx9Sys : Sys := Sys.init [fx9Root] none fx9Parse

/-- Claim C9 counterexample: for the nested archive member
`pack.sarc/inner.sarc`, `getattr` does *not* return the inherited stat with
regular-file bits: because the path's own last segment is archive-named, the
rewrite-to-directory fires and the mode is a directory (with size 0); and
the engine *does* recursively descend — `readdir` of the member lists the
inner archive's contents. -/
theorem claim_C9_counterexample :
    exStat (getattrOp fx9Sys ["pack.sarc", "inner.sarc"])
      = some ⟨16868, 0, 1, 0, 0, 0, 0, 0⟩ ∧
    (16868 &&& S_IFMT) = S_IFDIR ∧
    ((16868 &&& S_IFMT) = S_IFREG → False) ∧
    exSet (readdirOp fx9Sys ["pack.sarc", "inner.sarc"])
      = some {".", "..", "a.txt", ".__RAW_ARCHIVE__"} := by
  decide

/-- Claim C9 amended: for an archive member whose own name has an archive-family
extension, `getattr` returns the member's synthesized stat rewritten by
`change_st_to_directory` (the rewrite applies to *any* path whose last
segment is archive-named, including paths inside archives), so its mode is a
directory; and when the member's bytes parse, path resolution descends into
the nested archive, producing an `ArchiveDirectory` for it. -/
theorem claim_C9_amended_nested (roots : List HostFS)
    (parse : Bytes → Option Archive) (p relp : FPath) (arc arc2 : Archive)
    (par : Dir) (ast : StatRec) (f : String) (bm : Bytes)
    (hne : p ≠ [])
    (hdir : get_directory roots parse .contentRoot p.dropLast =
      .ok (.archive relp arc par))
    (hast : par.get_file_stats (relp.drop par.relp.length) = .ok ast)
    (hraw : joinPath (p.drop relp.length) ≠ SELF_FILE_NAME)
    (hfind : statMatchLoop (joinPath (p.drop relp.length)) arc.list_files
      = some (.exact f))
    (harc : isArchiveFilename p = true)
    (hreg : ast.st_mode &&& S_IFMT = S_IFREG)
    (hnodir : deviceIsDir roots p = false)
    (hmem : arc.lookup_member (joinPath (p.drop relp.length)) = some bm)
    (hparse2 : parse bm = some arc2) :
    getattrOp (Sys.init roots none parse) p =
      .ok (change_st_to_directory
        { ast with
          st_mode := ((bitClear (bitClear ast.st_mode S_IFDIR) S_IXUSR) ||| S_IFREG)
                       ||| (S_IRUSR ||| S_IWUSR)
          st_size := arc.get_file_size f }) ∧
    (change_st_to_directory
        { ast with
          st_mode := ((bitClear (bitClear ast.st_mode S_IFDIR) S_IXUSR) ||| S_IFREG)
                       ||| (S_IRUSR ||| S_IWUSR)
          st_size := arc.get_file_size f }).st_mode &&& S_IFMT = S_IFDIR ∧
    get_directory roots parse .contentRoot p =
      .ok (.archive p arc2 (.archive relp arc par)) := by
  refine ⟨?_, ?_, ?_⟩
  · simp only [Dir.relp] at hast
    simp [getattrOp, get_parent_dir_work_or_content, Sys.init, hdir, bind, Except.bind,
      Dir.get_file_stats, Dir.relp, hast, hraw, member_stats, hfind, harc]
  · exact mode_dir_of_reg _ (mode_reg_of_reg ast.st_mode hreg)
  · rw [get_directory_eq_archive_step _ _ _ hne hnodir harc, hdir]
    simp [bind, Except.bind, get_sarc_arc, Dir.open_file, Dir.relp, hraw, hmem,
      PFile.data, hparse2]

/-- Claim C9 amended witness: `pack.sarc/inner.sarc` gets a directory-rewritten
stat, and resolves to an archive directory over the inner archive. -/
theorem claim_C9_witness :
    getattrOp fx9Sys ["pack.sarc", "inner.sarc"] = .ok ⟨16868, 0, 1, 0, 0, 0, 0, 0⟩ ∧
    (16868 &&& S_IFMT) = S_IFDIR ∧
    get_directory [fx9Root] fx9Parse .contentRoot ["pack.sarc", "inner.sarc"] =
      .ok (.archive ["pack.sarc", "inner.sarc"] fx9Inner
        (.archive ["pack.sarc"] fx9Outer (.content [fx9Root] []))) := by
  have h := claim_C9_amended_nested [fx9Root] fx9Parse ["pack.sarc", "inner.sarc"]
    ["pack.sarc"] fx9Outer fx9Inner (.content [fx9Root] []) stF0 "inner.sarc" [7]
    (by decide) (by decide) (by decide) (by decide) (by decide) (by decide)
    (by decide) (by decide) (by decide) (by decide)
  exact ⟨h.1.trans (by decide), by decide, h.2.2⟩

/-- A successful `_find_parent` scan returns a root such that every root
*after* it (higher-indexed, i.e. scanned earlier) fails the predicate:
the winner is the highest-indexed root satisfying it. -/
theorem findParent_last (pred : HostFS → FPath → Bool) (roots : List HostFS)
    (p : FPath) (fsw : HostFS) (hne : p ≠ [])
    (h : findParent pred roots p = some fsw) :
    pred fsw p = true ∧
      ∃ pre post, roots = pre ++ fsw :: post ∧ ∀ fs ∈ post, pred fs p = false := by
  unfold findParent at h
  rw [if_neg hne] at h
  obtain ⟨hp, l1, l2, hsplit, hprev⟩ := List.find?_eq_some.mp h
  refine ⟨hp, l2.reverse, l1.reverse, ?_, ?_⟩
  · have := congrArg List.reverse hsplit
    simpa [List.reverse_append] using this
  · intro fs hfs
    have := hprev fs (List.mem_reverse.mp hfs)
    simpa using this

/-- Claim C4: for a path `p` present as a file in several content roots, `open`
and `getattr` reflect the root found by scanning the root list from last to
first — the first root where the path exists (as a file for `open`, at all
for `getattr`) wins, and every higher-indexed root fails that test.  The
returned descriptor reads the winning root's bytes, and `getattr` returns
the winning root's stat (directory-rewritten when `p` is archive-named). -/
theorem claim_C4_shadowing (roots : List HostFS)
    (parse : Bytes → Option Archive) (p : FPath) (fsw fse : HostFS) (b : Bytes)
    (st : StatRec) (e : HEntry)
    (hcount : 2 ≤ roots.countP (fun fs => fs.isfileB p))
    (hne : p ≠ [])
    (hpar : deviceIsDir roots p.dropLast = true)
    (hfind : findParent HostFS.isfileB roots p = some fsw)
    (hlook : fsw.lookup p = some (.file b st))
    (hfinde : findParent HostFS.pathExistsB roots p = some fse)
    (hlooke : fse.lookup p = some e) :
    openOp (Sys.init roots none parse) p .rdonly =
      .ok (0, sysAfterOpen0 roots parse p (.hostF b false)) ∧
    readOp (sysAfterOpen0 roots parse p (.hostF b false)) 0 b.length 0 =
      .ok (b, sysAfterRead0 roots parse p (.hostF b false)) ∧
    getattrOp (Sys.init roots none parse) p =
      .ok (if isArchiveFilename p then change_st_to_directory e.stat else e.stat) ∧
    (∃ pre post, roots = pre ++ fsw :: post ∧
      ∀ fs ∈ post, fs.isfileB p = false) ∧
    (∃ pre post, roots = pre ++ fse :: post ∧
      ∀ fs ∈ post, fs.pathExistsB p = false) := by
  have hopen : get_file roots parse .contentRoot p .rdonly = .ok (.hostF b false) :=
    get_file_content_file roots parse p fsw b st .rdonly hpar hfind hlook
  refine ⟨?_, ?_, ?_, ?_, ?_⟩
  · exact openOp_init_ro roots parse p (.hostF b false) hopen
  · have h := readOp_afterOpen0 roots parse p (.hostF b false)
    simpa [PFile.data] using h
  · rw [getattrOp]
    simp only [get_parent_dir_work_or_content, Sys.init]
    rw [get_directory_eq_content _ _ _ hpar]
    simp [bind, Except.bind, Dir.get_file_stats, Dir.relp, dropLast_append_drop,
      dropLast_append_drop2, hfinde, hlooke, apply_ite Except.ok]
  · exact (findParent_last _ _ _ _ hne hfind).2
  · exact (findParent_last _ _ _ _ hne hfinde).2

/- Claim C4 fixture: two roots both holding `a.txt`. -/

def fx4R1 : HostFS := ⟨[([], .dir stD0), (["a.txt"], .file [49] stF0)]⟩

def fx4R2 : HostFS := ⟨[([], .dir stD0), (["a.txt"], .file [50] ⟨33188, 1, 1, 7, 7, 0, 0, 0⟩)]⟩

/-- Claim C4 witness: with roots `[fx4R1, fx4R2]`, reading `/a.txt` yields the
second root's byte `'2'` and `getattr` the second root's stat. -/
theorem claim_C4_witness :
    exOkFd (openOp (Sys.init [fx4R1, fx4R2] none fxParse) ["a.txt"] .rdonly) = some 0 ∧
    readOp (sysAfterOpen0 [fx4R1, fx4R2] fxParse ["a.txt"] (.hostF [50] false)) 0 1 0 =
      .ok ([50], sysAfterRead0 [fx4R1, fx4R2] fxParse ["a.txt"] (.hostF [50] false)) ∧
    getattrOp (Sys.init [fx4R1, fx4R2] none fxParse) ["a.txt"] =
      .ok ⟨33188, 1, 1, 7, 7, 0, 0, 0⟩ := by
  have h := claim_C4_shadowing [fx4R1, fx4R2] fxParse ["a.txt"] fx4R2 fx4R2 [50]
    ⟨33188, 1, 1, 7, 7, 0, 0, 0⟩ (.file [50] ⟨33188, 1, 1, 7, 7, 0, 0, 0⟩)
    (by decide) (by decide) (by decide) (by decide) (by decide) (by decide) (by decide)
  refine ⟨?_, h.2.1, h.2.2.1.trans (by decide)⟩
  rw [h.1]
  decide

/-- Claim C6: round-trip read law.  Opening a readable path `p` read-only and then
reading `size(p)` bytes from offset 0 returns exactly the stored bytes of
`p`: (1) for a plain content file, the bytes of `p` in the winning content
root; (2) for an archive member — stored with or without a leading slash,
via `lookup_member`'s bare-then-slash fallback — the member's bytes. -/
theorem claim_C6_roundtrip_read (roots : List HostFS)
    (parse : Bytes → Option Archive) (p relp : FPath) (fsw : HostFS)
    (b bm : Bytes) (st : StatRec) (arc : Archive) (par : Dir) :
    ((deviceIsDir roots p.dropLast = true →
      findParent HostFS.isfileB roots p = some fsw →
      fsw.lookup p = some (.file b st) →
      openOp (Sys.init roots none parse) p .rdonly =
        .ok (0, sysAfterOpen0 roots parse p (.hostF b false)) ∧
      readOp (sysAfterOpen0 roots parse p (.hostF b false)) 0 b.length 0 =
        .ok (b, sysAfterRead0 roots parse p (.hostF b false)))) ∧
    ((get_directory roots parse .contentRoot p.dropLast =
        .ok (.archive relp arc par) →
      joinPath (p.drop relp.length) ≠ SELF_FILE_NAME →
      arc.lookup_member (joinPath (p.drop relp.length)) = some bm →
      openOp (Sys.init roots none parse) p .rdonly =
        .ok (0, sysAfterOpen0 roots parse p (.memF bm)) ∧
      readOp (sysAfterOpen0 roots parse p (.memF bm)) 0 bm.length 0 =
        .ok (bm, sysAfterRead0 roots parse p (.memF bm)))) := by
  constructor
  · intro hpar hfind hlook
    have hopen : get_file roots parse .contentRoot p .rdonly = .ok (.hostF b false) :=
      get_file_content_file roots parse p fsw b st .rdonly hpar hfind hlook
    refine ⟨openOp_init_ro roots parse p (.hostF b false) hopen, ?_⟩
    have h := readOp_afterOpen0 roots parse p (.hostF b false)
    simpa [PFile.data] using h
  · intro hdir hraw hmem
    have hopen : get_file roots parse .contentRoot p .rdonly = .ok (.memF bm) :=
      get_file_archive_member roots parse p relp arc par bm .rdonly hdir hraw hmem
    refine ⟨openOp_init_ro roots parse p (.memF bm) hopen, ?_⟩
    have h := readOp_afterOpen0 roots parse p (.memF bm)
    simpa [PFile.data] using h

/-- Claim C6 witness: the content file `a.txt` (bytes `"hi"`), and the
slash-stored archive member `pack.sarc/sfoo.bin` (the bare lookup misses,
the `'/' + name` fallback hits). -/
theorem claim_C6_witness :
    openOp fxSys ["a.txt"] .rdonly =
      .ok (0, sysAfterOpen0 [fxRoot] fxParse ["a.txt"] (.hostF [104, 105] false)) ∧
    readOp (sysAfterOpen0 [fxRoot] fxParse ["a.txt"] (.hostF [104, 105] false)) 0 2 0 =
      .ok ([104, 105],
        sysAfterRead0 [fxRoot] fxParse ["a.txt"] (.hostF [104, 105] false)) ∧
    fxArc.get_file_data "sfoo.bin" = none ∧
    openOp fxSys ["pack.sarc", "sfoo.bin"] .rdonly =
      .ok (0, sysAfterOpen0 [fxRoot] fxParse ["pack.sarc", "sfoo.bin"] (.memF [99])) ∧
    readOp (sysAfterOpen0 [fxRoot] fxParse ["pack.sarc", "sfoo.bin"] (.memF [99])) 0 1 0 =
      .ok ([99],
        sysAfterRead0 [fxRoot] fxParse ["pack.sarc", "sfoo.bin"] (.memF [99])) := by
  have h1 := (claim_C6_roundtrip_read [fxRoot] fxParse ["a.txt"] [] fxRoot
    [104, 105] [] stF0 fxArc (.content [fxRoot] [])).1
    (by decide) (by decide) (by decide)
  have h2 := (claim_C6_roundtrip_read [fxRoot] fxParse ["pack.sarc", "sfoo.bin"]
    ["pack.sarc"] fxRoot [104, 105] [99] stF0 fxArc (.content [fxRoot] [])).2
    (by decide) (by decide) (by decide)
  exact ⟨h1.1, h1.2, by decide, h2.1, h2.2⟩

/-- Claim C1: archive transparency.  For a content-root file `p` with an
archive-family extension whose bytes parse as an archive (and which is not
shadowed by a directory in any root): `getattr(p)` is the host stat
rewritten to directory mode; `readdir(p)` is exactly `{'.', '..'}` together
with the immediate archive children (first path segments of member names,
leading slash stripped — `specArchiveChildren`, stated from the spec's
words) plus `.__RAW_ARCHIVE__` (for an archive with no members this is
exactly `{'.', '..', '.__RAW_ARCHIVE__'}`); and opening and reading
`p/.__RAW_ARCHIVE__` yields exactly the raw bytes of `p` as stored in the
winning host root. -/
theorem claim_C1_archive_transparency (roots : List HostFS)
    (parse : Bytes → Option Archive) (p : FPath) (fsw : HostFS) (b : Bytes)
    (st : StatRec) (arc : Archive)
    (hne : p ≠ [])
    (harc : isArchiveFilename p = true)
    (hdir : deviceIsDir roots p = false)
    (hpar : deviceIsDir roots p.dropLast = true)
    (hfind : findParent HostFS.isfileB roots p = some fsw)
    (hlook : fsw.lookup p = some (.file b st))
    (hparse : parse b = some arc)
    (hreg : st.st_mode &&& S_IFMT = S_IFREG) :
    (getattrOp (Sys.init roots none parse) p = .ok (change_st_to_directory st) ∧
      (change_st_to_directory st).st_mode &&& S_IFMT = S_IFDIR) ∧
    readdirOp (Sys.init roots none parse) p =
      .ok ({".", ".."} ∪ (specArchiveChildren arc ∪ {SELF_FILE_NAME})) ∧
    (openOp (Sys.init roots none parse) (p ++ [SELF_FILE_NAME]) .rdonly =
        .ok (0, sysAfterOpen0 roots parse (p ++ [SELF_FILE_NAME]) (.hostF b false)) ∧
      readOp (sysAfterOpen0 roots parse (p ++ [SELF_FILE_NAME]) (.hostF b false))
          0 b.length 0 =
        .ok (b, sysAfterRead0 roots parse (p ++ [SELF_FILE_NAME]) (.hostF b false))) := by
  have harch : get_directory roots parse .contentRoot p =
      .ok (.archive p arc (.content roots p.dropLast)) :=
    get_directory_archive_of roots parse p fsw b st arc hne hdir harc hpar hfind
      hlook hparse
  refine ⟨⟨?_, mode_dir_of_reg st.st_mode hreg⟩, ?_, ?_⟩
  · rw [getattrOp]
    simp only [get_parent_dir_work_or_content, Sys.init]
    rw [get_directory_eq_content _ _ _ hpar]
    have hfinde : findParent HostFS.pathExistsB roots p =
        findParent HostFS.isfileB roots p :=
      findParent_exists_eq_isfile roots p hne hdir
    simp [bind, Except.bind, Dir.get_file_stats, Dir.relp, dropLast_append_drop,
      dropLast_append_drop2, hfinde, hfind, hlook, harc, HEntry.stat]
  · rw [readdirOp]
    simp only [Sys.init]
    rw [harch]
    simp [Dir.list_files, Dir.relp, List.drop_length, archiveListFiles_root]
  · have hdl : (p ++ [SELF_FILE_NAME]).dropLast = p := List.dropLast_concat
    have hjoin : joinPath ((p ++ [SELF_FILE_NAME]).drop p.length) = SELF_FILE_NAME := by
      rw [List.drop_left]
      exact joinPath_single _
    have hopen : (Dir.content roots p.dropLast).open_file
        (p.drop p.dropLast.length) .rdonly = .ok (.hostF b false) := by
      simp [Dir.open_file, Dir.relp, dropLast_append_drop, dropLast_append_drop2,
        hfind, hlook, OFlags.writableB]
    have hraw : get_file roots parse .contentRoot (p ++ [SELF_FILE_NAME]) .rdonly =
        .ok (.hostF b false) := by
      apply get_file_raw_member roots parse (p ++ [SELF_FILE_NAME]) p arc
        (.content roots p.dropLast) (.hostF b false) .rdonly
      · rw [hdl, harch]
      · exact hjoin
      · exact hopen
    refine ⟨openOp_init_ro roots parse _ _ hraw, ?_⟩
    have h := readOp_afterOpen0 roots parse (p ++ [SELF_FILE_NAME]) (.hostF b false)
    simpa [PFile.data] using h

/-- Claim C1 witness: `pack.sarc` (members `foo.bin`, `bar/baz.bin`, `/sfoo.bin`)
and the empty archive `empty.sarc` (whose listing is exactly
`{'.', '..', '.__RAW_ARCHIVE__'}`); reading the raw pseudofile returns the
archive's host bytes `[9]`. -/
theorem claim_C1_witness :
    getattrOp fxSys ["pack.sarc"] = .ok ⟨16868, 0, 1, 0, 0, 0, 0, 0⟩ ∧
    readdirOp fxSys ["pack.sarc"] =
      .ok {".", "..", "foo.bin", "bar", "sfoo.bin", ".__RAW_ARCHIVE__"} ∧
    readdirOp fxSys ["empty.sarc"] = .ok {".", "..", ".__RAW_ARCHIVE__"} ∧
    openOp fxSys ["pack.sarc", ".__RAW_ARCHIVE__"] .rdonly =
      .ok (0, sysAfterOpen0 [fxRoot] fxParse ["pack.sarc", ".__RAW_ARCHIVE__"]
        (.hostF [9] false)) ∧
    readOp (sysAfterOpen0 [fxRoot] fxParse ["pack.sarc", ".__RAW_ARCHIVE__"]
        (.hostF [9] false)) 0 1 0 =
      .ok ([9], sysAfterRead0 [fxRoot] fxParse ["pack.sarc", ".__RAW_ARCHIVE__"]
        (.hostF [9] false)) := by
  have h1 := claim_C1_archive_transparency [fxRoot] fxParse ["pack.sarc"]
    fxRoot [9] stF0 fxArc (by decide) (by decide) (by decide) (by decide)
    (by decide) (by decide) (by decide) (by decide)
  have h2 := claim_C1_archive_transparency [fxRoot] fxParse ["empty.sarc"]
    fxRoot [5] stF0 fxEmptyArc (by decide) (by decide) (by decide) (by decide)
    (by decide) (by decide) (by decide) (by decide)
  exact ⟨h1.1.1.trans (by decide), h1.2.1.trans (by decide),
    h2.2.1.trans (by decide), h1.2.2.1, h1.2.2.2⟩

/- Claim C2: the copy-on-write promotion run. -/

def exReadSys (r : Except FsError (Bytes × Sys)) (dflt : Sys) : Sys :=
  match r with
  | .ok (_, s) => s
  | _ => dflt

def exRelSys (r : Except FsError Sys) (dflt : Sys) : Sys :=
  match r with
  | .ok s => s
  | _ => dflt

def c2Work : HostFS := ⟨[([], .dir stD0)]⟩

/-- Mount of `[fxRoot]` with an empty work directory. -/
def c2Sys : Sys := Sys.init [fxRoot] (some c2Work) fxParse

/-- After `open("/a.txt", O_RDONLY)`. -/
def c2s1 : Sys := exOkSys (openOp c2Sys ["a.txt"] .rdonly) c2Sys

/-- After `read(fd 0, length 5, offset 0)` — the cached host handle's OS
offset is now at end of file. -/
def c2s2 : Sys := exReadSys (readOp c2s1 0 5 0) c2s1

/-- After `release(fd 0)` — the handle object stays in the lru cache. -/
def c2s3 : Sys := exRelSys (releaseOp c2s2 0) c2s2

/-- After `open("/a.txt", O_RDWR)` — the copy-on-write promotion. -/
def c2s4 : Sys := exOkSys (openOp c2s3 ["a.txt"] .rdwr) c2s3

/-- Claim C2 (code bug): after a read-only open and a full read of `/a.txt`
(content `[104, 105]`, i.e. `"hi"`), releasing it, and then opening
`/a.txt` read-write, the promotion re-uses the *cached* content handle and
copies `file.read(file.get_size())` from its current cursor without seeking
to 0 (`BotWContent.open`, lines 407–411): the file materialized at
`work_dir/a.txt` is empty, not byte-identical to the content-device view
`[104, 105]` — every step of the run succeeds, so the claim's scenario is
reached and its conclusion (a) fails. -/
theorem claim_C2_promotion_stale_cursor :
    exOkFd (openOp c2Sys ["a.txt"] .rdonly) = some 0 ∧
    (readOp c2s1 0 5 0).map (fun r => r.1) = .ok [104, 105] ∧
    (releaseOp c2s2 0).isOk = true ∧
    exOkFd (openOp c2s3 ["a.txt"] .rdwr) = some 0 ∧
    get_file [fxRoot] fxParse .contentRoot ["a.txt"] .rdonly =
      .ok (.hostF [104, 105] false) ∧
    workData c2s4 ["a.txt"] = some [] ∧
    some ([] : Bytes) ≠ some [104, 105] := by
  decide
